

import Mathlib

/-!
Shallow embedding of the TaskTrackerPro balance-maintenance and analytics
core (src/server/storage.ts `MemStorage`, src/server/routes.ts analytics
handlers).

Conventions of the embedding:
* Monetary values are decimal strings with two fractional digits in the
  source (`decimal(15,2)` columns, `toFixed(2)` on every write).  They are
  represented here as integer *cents* (`Int`); `b.toFixed(2)` on an exact
  2-decimal value is the identity, so create/delete arithmetic becomes
  exact `Int` addition/subtraction.  The question of IEEE-754 drift in the
  JS `parseFloat`/`toFixed` round-trip is outside this embedding and is
  treated separately.
* JS `Map` objects (`this.accounts`, `this.transactions`) and plain
  record accumulators become association lists with first-occurrence
  lookup/update/removal, which coincides with `Map` semantics on the
  duplicate-free key lists a `Map` guarantees.
* Dates are modelled at calendar-day granularity (`year`, `month`, `day`);
  the analytics code only ever asks "which calendar month" of a date.
* JS truthiness tests on ids (`if (transaction.accountId)`) are modelled
  exactly: `0` and `null` are falsy; `x || null` normalisation maps `0`
  and the empty string to `null`.
-/

namespace TaskTracker

/-- Transaction type enum: the `type` text column holds "expense" or "income". -/
inductive TxType where
  | income
  | expense
  deriving DecidableEq

/-- Calendar date at day granularity (the analytics only inspect year/month). -/
structure Date where
  year : Nat
  month : Nat
  day : Nat
  deriving DecidableEq

/-- Row of the `accounts` table (`shared/schema.ts`); `balance` in cents. -/
structure Account where
  id : Nat
  name : String
  type : String
  balance : Int
  bankName : Option String
  accountNumber : Option String
  userId : Option Nat
  deriving DecidableEq

/-- Row of the `categories` table. -/
structure Category where
  id : Nat
  name : String
  color : String
  type : String
  deriving DecidableEq

/-- Row of the `transactions` table; `amount` in cents. -/
structure Transaction where
  id : Nat
  type : TxType
  amount : Int
  description : String
  thirdParty : Option String
  categoryId : Option Nat
  accountId : Option Nat
  paymentMethod : Option String
  receiptUrl : Option String
  notes : Option String
  userId : Option Nat
  transactionDate : Date
  deriving DecidableEq

/-- Payload shape `InsertTransaction` (id/createdAt omitted, optional fields optional). -/
structure InsertTransaction where
  type : TxType
  amount : Int
  description : String
  thirdParty : Option String
  categoryId : Option Nat
  accountId : Option Nat
  paymentMethod : Option String
  receiptUrl : Option String
  notes : Option String
  userId : Option Nat
  transactionDate : Option Date
  deriving DecidableEq

/-- Update payload `Partial<InsertTransaction>`: every field may be absent (outer `Option`). -/
structure UpdateTransaction where
  type : Option TxType := none
  amount : Option Int := none
  description : Option String := none
  thirdParty : Option (Option String) := none
  categoryId : Option (Option Nat) := none
  accountId : Option (Option Nat) := none
  paymentMethod : Option (Option String) := none
  receiptUrl : Option (Option String) := none
  notes : Option (Option String) := none
  userId : Option (Option Nat) := none
  transactionDate : Option Date := none
  deriving DecidableEq

/-- Association-list lookup, first occurrence: JS `Map.get` / record index. -/
def mapGet {κ α : Type} [DecidableEq κ] : List (κ × α) → κ → Option α
  | [], _ => none
  | p :: ps, k => if p.1 = k then some p.2 else mapGet ps k

/-- Association-list store, replacing the first occurrence or appending:
JS `Map.set` / record assignment. -/
def mapSet {κ α : Type} [DecidableEq κ] : List (κ × α) → κ → α → List (κ × α)
  | [], k, v => [(k, v)]
  | p :: ps, k, v => if p.1 = k then (k, v) :: ps else p :: mapSet ps k v

/-- Association-list removal of the first occurrence: JS `Map.delete`. -/
def mapDel {κ α : Type} [DecidableEq κ] : List (κ × α) → κ → List (κ × α)
  | [], _ => []
  | p :: ps, k => if p.1 = k then ps else p :: mapDel ps k

/-- JS `x || null` on a nullable number: `0` is falsy and becomes `null`. -/
def orNullNat : Option Nat → Option Nat
  | none => none
  | some n => if n = 0 then none else some n

/-- JS `x || null` on a nullable string: `""` is falsy and becomes `null`. -/
def orNullStr : Option String → Option String
  | none => none
  | some s => if s = "" then none else some s

/-- The in-memory backend state: the two maps the transaction logic touches
and the manual id counter (`MemStorage` in src/server/storage.ts). -/
structure MemStorage where
  accounts : List (Nat × Account)
  transactions : List (Nat × Transaction)
  currentTransactionId : Nat
  deriving DecidableEq

/-- Signed amount of a posting: `+amount` for income, `-amount` for expense. -/
def signedAmount (t : Transaction) : Int :=
  match t.type with
  | TxType.income => t.amount
  | TxType.expense => -t.amount

/-- The balance-adjustment block shared verbatim by `createTransaction`
(delta `+signedAmount`) and `deleteTransaction` (delta `-signedAmount`):
`if (transaction.accountId) { const account = this.accounts.get(...); if (account) { ...set new balance... } }`.
A `0` id is falsy in JS, hence the explicit guard. -/
def applyPosting (accounts : List (Nat × Account)) (accountId : Option Nat)
    (delta : Int) : List (Nat × Account) :=
  match accountId with
  | none => accounts
  | some aid =>
    if aid = 0 then accounts
    else
      match mapGet accounts aid with
      | none => accounts
      | some account => mapSet accounts aid { account with balance := account.balance + delta }

/-- The transaction row built by `MemStorage.createTransaction`: fresh id from
the counter, `x || null` normalisation of the optional fields, and
`transactionDate: insertTransaction.transactionDate || new Date()` (`now`). -/
def mkTransaction (now : Date) (s : MemStorage) (ins : InsertTransaction) : Transaction :=
  { id := s.currentTransactionId
    type := ins.type
    amount := ins.amount
    description := ins.description
    thirdParty := orNullStr ins.thirdParty
    categoryId := orNullNat ins.categoryId
    accountId := orNullNat ins.accountId
    paymentMethod := orNullStr ins.paymentMethod
    receiptUrl := orNullStr ins.receiptUrl
    notes := orNullStr ins.notes
    userId := orNullNat ins.userId
    transactionDate := ins.transactionDate.getD now }

/-- Model of `MemStorage.createTransaction`: store the new row, then if the (truthy)
`accountId` resolves to an account, set its balance to
`current + amount` (income) / `current - amount` (expense). -/
def createTransaction (now : Date) (s : MemStorage) (ins : InsertTransaction) :
    MemStorage × Transaction :=
  let t := mkTransaction now s ins
  ({ accounts := applyPosting s.accounts t.accountId (signedAmount t)
     transactions := mapSet s.transactions t.id t
     currentTransactionId := s.currentTransactionId + 1 }, t)

/-- Field-wise merge `{ ...transaction, ...updates }`: a field present in the
update payload overwrites, an absent one keeps the stored value. -/
def mergeTransaction (t : Transaction) (u : UpdateTransaction) : Transaction :=
  { id := t.id
    type := u.type.getD t.type
    amount := u.amount.getD t.amount
    description := u.description.getD t.description
    thirdParty := u.thirdParty.getD t.thirdParty
    categoryId := u.categoryId.getD t.categoryId
    accountId := u.accountId.getD t.accountId
    paymentMethod := u.paymentMethod.getD t.paymentMethod
    receiptUrl := u.receiptUrl.getD t.receiptUrl
    notes := u.notes.getD t.notes
    userId := u.userId.getD t.userId
    transactionDate := u.transactionDate.getD t.transactionDate }

/-- Model of `MemStorage.updateTransaction`: patch the row and nothing else; returns
the patched row, or `none` when the id is unknown. -/
def updateTransaction (s : MemStorage) (id : Nat) (u : UpdateTransaction) :
    MemStorage × Option Transaction :=
  match mapGet s.transactions id with
  | none => (s, none)
  | some t =>
    let t' := mergeTransaction t u
    ({ s with transactions := mapSet s.transactions id t' }, some t')

/-- Model of `MemStorage.deleteTransaction`: look the row up; if its (truthy)
`accountId` resolves to an account, apply the inverse balance adjustment;
then remove the row.  Unknown id returns `false` and leaves the state alone. -/
def deleteTransaction (s : MemStorage) (id : Nat) : MemStorage × Bool :=
  match mapGet s.transactions id with
  | none => (s, false)
  | some t =>
    ({ s with
        accounts := applyPosting s.accounts t.accountId (-(signedAmount t))
        transactions := mapDel s.transactions id }, true)

/-- Char-list front match: does `pat` start the list `s`? -/
def matchesFront : List Char → List Char → Bool
  | [], _ => true
  | _ :: _, [] => false
  | a :: pat, b :: s => a == b && matchesFront pat s

/-- Char-list substring occurrence; `String.includes` semantics. -/
def occursIn : List Char → List Char → Bool
  | pat, [] => matchesFront pat []
  | pat, c :: s => matchesFront pat (c :: s) || occursIn pat s

/-- Check `description.includes("Pago de préstamo")`: the loan-payment marker. -/
def hasLoanMarker (s : String) : Bool :=
  occursIn "Pago de préstamo".toList s.toList

/-- A transaction carrying the transfer marker (`thirdParty === "Transferencia"`)
or the loan-payment marker in its description. -/
def isMarked (t : Transaction) : Bool :=
  decide (t.thirdParty = some "Transferencia") || hasLoanMarker t.description

/-- Filter `t.type === "income" && t.thirdParty !== "Transferencia" && !t.description?.includes("Pago de préstamo")`. -/
def countsAsIncome (t : Transaction) : Bool :=
  decide (t.type = TxType.income) && !(isMarked t)

/-- The expense-side analytics filter, symmetric to `countsAsIncome`. -/
def countsAsExpense (t : Transaction) : Bool :=
  decide (t.type = TxType.expense) && !(isMarked t)

/-- Day-granularity rendering of `transactionDate >= monthStart && transactionDate <= monthEnd`
for the month `(y, m)`: the date falls in that calendar month. -/
def inMonth (t : Transaction) (y m : Nat) : Bool :=
  decide (t.transactionDate.year = y) && decide (t.transactionDate.month = m)

/-- Total `monthlyIncome` (and with shifted month, `prevMonthIncome`): sum of amounts
of income transactions in month `(y, m)`, markers excluded, in cents. -/
def monthIncomeCents (txs : List Transaction) (y m : Nat) : Int :=
  ((txs.filter (fun t => inMonth t y m && countsAsIncome t)).map (fun t => t.amount)).sum

/-- Total `monthlyExpenses` / `prevMonthExpenses`, in cents. -/
def monthExpenseCents (txs : List Transaction) (y m : Nat) : Int :=
  ((txs.filter (fun t => inMonth t y m && countsAsExpense t)).map (fun t => t.amount)).sum

/-- Shift `new Date(y, currentMonth.getMonth() - 1, 1)`: the previous calendar month
of `(y, m)` with months numbered 1..12 (JS rolls month 0 back into December). -/
def prevMonth (y m : Nat) : Nat × Nat :=
  if m = 1 then (y - 1, 12) else (y, m - 1)

/-- Expression `prev > 0 ? ((cur - prev) / prev) * 100 : 0`, as an exact rational. -/
def changePercent (cur prev : Int) : ℚ :=
  if 0 < prev then ((cur : ℚ) - (prev : ℚ)) / (prev : ℚ) * 100 else 0

/-- Response shape of `GET /api/analytics/summary`; money fields in cents. -/
structure Summary where
  totalBalance : Int
  monthlyIncome : Int
  monthlyExpenses : Int
  pendingLoans : Int
  netCashFlow : Int
  incomeChangePercent : ℚ
  expenseChangePercent : ℚ
  prevMonthIncome : Int
  prevMonthExpenses : Int
  deriving DecidableEq

/-- Handler `GET /api/analytics/summary` over the owner's transactions and accounts,
with `(y, m)` the current calendar month taken from the clock. -/
def summaryOf (txs : List Transaction) (accounts : List Account) (y m : Nat) : Summary :=
  let monthlyIncome := monthIncomeCents txs y m
  let monthlyExpenses := monthExpenseCents txs y m
  let prevYM := prevMonth y m
  let prevIncome := monthIncomeCents txs prevYM.1 prevYM.2
  let prevExpenses := monthExpenseCents txs prevYM.1 prevYM.2
  { totalBalance := (accounts.map (fun a => a.balance)).sum
    monthlyIncome := monthlyIncome
    monthlyExpenses := monthlyExpenses
    pendingLoans :=
      ((accounts.filter (fun a => a.type == "loan" || a.type == "credit")).map
        (fun a => max 0 a.balance)).sum
    netCashFlow := monthlyIncome - monthlyExpenses
    incomeChangePercent := changePercent monthlyIncome prevIncome
    expenseChangePercent := changePercent monthlyExpenses prevExpenses
    prevMonthIncome := prevIncome
    prevMonthExpenses := prevExpenses }

/-- Lookup `transaction.categoryId ? categoriesMap.get(...) : null` followed by
`category?.name || "Sin categoría"`: id `0` is falsy, a dangling id and an
empty name also fall back to the fixed uncategorized label. -/
def resolveCategoryName (cats : List (Nat × Category)) (cid : Option Nat) : String :=
  match cid with
  | none => "Sin categoría"
  | some c =>
    if c = 0 then "Sin categoría"
    else
      match mapGet cats c with
      | none => "Sin categoría"
      | some cat => if cat.name = "" then "Sin categoría" else cat.name

/-- One step of the `expensesByCategory` reduce:
`acc[name] = (acc[name] || 0) + parseFloat(amount)`. -/
def ebcStep (cats : List (Nat × Category)) (acc : List (String × Int))
    (t : Transaction) : List (String × Int) :=
  let name := resolveCategoryName cats t.categoryId
  mapSet acc name (((mapGet acc name).getD 0) + t.amount)

/-- Handler `GET /api/analytics/expenses-by-category`: fold the non-excluded expense
transactions into a category-name → total mapping. -/
def expensesByCategory (txs : List Transaction) (cats : List (Nat × Category)) :
    List (String × Int) :=
  (txs.filter countsAsExpense).foldl (ebcStep cats) []

/-- Per-month accumulator of the trends pass (`{ income: 0, expenses: 0 }`). -/
structure MonthAcc where
  income : Int
  expenses : Int
  deriving DecidableEq

/-- Month key of a date: the year, a dash, and the 1-based month zero-padded to
width 2 (the template-literal key of the trends pass). -/
def monthKey (d : Date) : String :=
  toString d.year ++ "-" ++ (if d.month < 10 then "0" ++ toString d.month else toString d.month)

/-- One step of the trends pass: create the month bucket if absent, then add
the amount to the income or expense side unless the transaction is excluded. -/
def trendStep (acc : List (String × MonthAcc)) (t : Transaction) :
    List (String × MonthAcc) :=
  let k := monthKey t.transactionDate
  let b := (mapGet acc k).getD ⟨0, 0⟩
  let b' :=
    if countsAsIncome t then { b with income := b.income + t.amount }
    else if countsAsExpense t then { b with expenses := b.expenses + t.amount }
    else b
  mapSet acc k b'

/-- The `monthlyData` record of `GET /api/analytics/monthly-trends`. -/
def monthlyData (txs : List Transaction) : List (String × MonthAcc) :=
  txs.foldl trendStep []

/-- Lexicographic char-list comparison, the order `Array.prototype.sort`'s
default string comparator induces (code-unit order; for these ASCII month
keys identical to codepoint order). -/
def charListLe : List Char → List Char → Bool
  | [], _ => true
  | _ :: _, [] => false
  | a :: as, b :: bs => if a < b then true else if b < a then false else charListLe as bs

/-- String comparison used by the month-key sort. -/
def strLeB (a b : String) : Bool := charListLe a.data b.data

/-- Insert a key into an already sorted key list. -/
def insertKey (x : String) : List String → List String
  | [] => [x]
  | y :: ys => if strLeB x y then x :: y :: ys else y :: insertKey x ys

/-- Insertion sort of the month keys (the effect of `.sort()`). -/
def sortKeys : List String → List String
  | [] => []
  | x :: xs => insertKey x (sortKeys xs)

/-- Keys `Object.keys(monthlyData).sort()`: the month keys in ascending string order. -/
def sortedMonthsOf (txs : List Transaction) : List String :=
  sortKeys ((monthlyData txs).map Prod.fst)

/-- Window `sortedMonths.slice(-6)`: the last six keys (all of them when fewer). -/
def last6MonthsOf (txs : List Transaction) : List String :=
  (sortedMonthsOf txs).drop ((sortedMonthsOf txs).length - 6)

/-- Entry of the trends response: `{ month, income, expenses, net }`. -/
structure TrendEntry where
  month : String
  income : Int
  expenses : Int
  net : Int
  deriving DecidableEq

/-- The entry emitted for one month key. -/
def trendOf (txs : List Transaction) (k : String) : TrendEntry :=
  let b := (mapGet (monthlyData txs) k).getD ⟨0, 0⟩
  { month := k, income := b.income, expenses := b.expenses, net := b.income - b.expenses }

/-- Handler `GET /api/analytics/monthly-trends`. -/
def monthlyTrends (txs : List Transaction) : List TrendEntry :=
  (last6MonthsOf txs).map (trendOf txs)

/-- Sum of amounts of the currently stored *income* transactions whose
`accountId` references `aid`. -/
def incomeSum (txs : List (Nat × Transaction)) (aid : Nat) : Int :=
  (((txs.map Prod.snd).filter
      (fun t => decide (t.accountId = some aid) && decide (t.type = TxType.income))).map
    (fun t => t.amount)).sum

/-- Sum of amounts of the currently stored *expense* transactions whose
`accountId` references `aid`. -/
def expenseSum (txs : List (Nat × Transaction)) (aid : Nat) : Int :=
  (((txs.map Prod.snd).filter
      (fun t => decide (t.accountId = some aid) && decide (t.type = TxType.expense))).map
    (fun t => t.amount)).sum

/-- Net signed sum of the stored postings against account `aid`. -/
def postedSum (txs : List (Nat × Transaction)) (aid : Nat) : Int :=
  (((txs.map Prod.snd).filter (fun t => decide (t.accountId = some aid))).map signedAmount).sum

/-- A posting operation against the store: a transaction create (with the
clock value used for a defaulted date) or a transaction delete. -/
inductive TxOp where
  | create (now : Date) (ins : InsertTransaction)
  | delete (id : Nat)

/-- Apply one operation, keeping only the resulting state. -/
def applyOp (s : MemStorage) : TxOp → MemStorage
  | TxOp.create now ins => (createTransaction now s ins).1
  | TxOp.delete id => (deleteTransaction s id).1

/-- Run a sequence of operations. -/
def runOps (s : MemStorage) (ops : List TxOp) : MemStorage :=
  ops.foldl applyOp s

/-- Well-formedness a JS `Map` plus id counter guarantees: keys are distinct
and the counter is strictly above every stored key. -/
def TxWF (s : MemStorage) : Prop :=
  (s.transactions.map Prod.fst).Nodup ∧ ∀ p ∈ s.transactions, p.1 < s.currentTransactionId

/-- Demo account with balance 100.00 (10000 cents). -/
def wAccount : Account :=
  { id := 1, name := "Cuenta Corriente Principal", type := "checking", balance := 10000,
    bankName := none, accountNumber := none, userId := some 1 }

/-- Store holding only the demo account, no transactions yet. -/
def wStore : MemStorage :=
  { accounts := [(1, wAccount)], transactions := [], currentTransactionId := 1 }

/-- Expense posting of 30.00 against the demo account. -/
def wInsExpense : InsertTransaction :=
  { type := TxType.expense, amount := 3000, description := "Compra", thirdParty := none,
    categoryId := none, accountId := some 1, paymentMethod := none, receiptUrl := none,
    notes := none, userId := some 1, transactionDate := some ⟨2025, 9, 5⟩ }

/-- Income posting of 20.00 against the demo account. -/
def wInsIncome : InsertTransaction := { wInsExpense with type := TxType.income, amount := 2000 }

/-- Clock value used when a create omits the transaction date. -/
def wNow : Date := ⟨2025, 9, 1⟩

/-- The spec scenario: post the expense, post the income, delete the expense. -/
def wOps : List TxOp := [TxOp.create wNow wInsExpense, TxOp.create wNow wInsIncome, TxOp.delete 1]

/-- Store in which the demo expense has already been posted (id 1). -/
def wStore1 : MemStorage := (createTransaction wNow wStore wInsExpense).1

/-- Update payload changing amount, type and account at once. -/
def wUpd : UpdateTransaction :=
  { type := some TxType.income, amount := some 99999, accountId := some (some 7) }

/-- Sample transaction: only the fields the analytics read are distinguished. -/
def sampleTx (y m : Nat) (ty : TxType) (amt : Int) (tp : Option String)
    (desc : String) : Transaction :=
  { id := 0, type := ty, amount := amt, description := desc, thirdParty := tp,
    categoryId := none, accountId := none, paymentMethod := none, receiptUrl := none,
    notes := none, userId := none, transactionDate := ⟨y, m, 15⟩ }

/-- Transactions with current-month income 50.00 and an empty previous month. -/
def c8txs : List Transaction := [sampleTx 2025 9 TxType.income 5000 none "Venta"]

/-- Category table: Food (id 1) and Transport (id 2). -/
def c9cats : List (Nat × Category) :=
  [(1, { id := 1, name := "Food", color := "#1976D2", type := "expense" }),
   (2, { id := 2, name := "Transport", color := "#388E3C", type := "expense" })]

/-- Two categorized expenses (40.00 Food, 25.00 Transport) and one
uncategorized expense (10.00) in the same month. -/
def c9txs : List Transaction :=
  [{ sampleTx 2025 9 TxType.expense 4000 none "Comida" with categoryId := some 1 },
   { sampleTx 2025 9 TxType.expense 2500 none "Bus" with categoryId := some 2 },
   sampleTx 2025 9 TxType.expense 1000 none "Otro"]

/-- The value of a month bucket, with the `{ income: 0, expenses: 0 }`
default an absent bucket would be initialised to. -/
def bucketOf (d : List (String × MonthAcc)) (k : String) : MonthAcc :=
  (mapGet d k).getD ⟨0, 0⟩

/-- A transfer-marked income posting of 5.00. -/
def c5t : Transaction := sampleTx 2025 9 TxType.income 500 (some "Transferencia") "Traspaso"

/-- A transfer-marked insert payload of 5.00 against account 1. -/
def c5ins : InsertTransaction :=
  { type := TxType.income, amount := 500, description := "Traspaso",
    thirdParty := some "Transferencia", categoryId := none, accountId := some 1,
    paymentMethod := none, receiptUrl := none, notes := none, userId := some 1,
    transactionDate := some ⟨2025, 9, 5⟩ }

/-- An ordinary income transaction alongside the marked one. -/
def c5txs : List Transaction := [sampleTx 2025 9 TxType.income 100 none "Venta"]

/-- One month (2025-08) whose only transaction is transfer-marked, next to an
ordinary month (2025-09). -/
def c10txs : List Transaction :=
  [sampleTx 2025 8 TxType.expense 700 (some "Transferencia") "Traspaso",
   sampleTx 2025 9 TxType.income 100 none "Venta"]

/-! ### Association-list map lemmas -/

theorem mapGet_mapSet_self {κ α : Type} [DecidableEq κ] (m : List (κ × α)) (k : κ) (v : α) :
    mapGet (mapSet m k v) k = some v := by
  induction m with
  | nil => simp [mapGet, mapSet]
  | cons p ps ih =>
    by_cases h : p.1 = k
    · simp [mapGet, mapSet, h]
    · simp [mapGet, mapSet, h, ih]

theorem mapGet_mapSet_ne {κ α : Type} [DecidableEq κ] (m : List (κ × α)) (k k' : κ) (v : α)
    (h : k' ≠ k) : mapGet (mapSet m k v) k' = mapGet m k' := by
  have hne : ¬(k = k') := fun hh => h hh.symm
  induction m with
  | nil => simp [mapGet, mapSet, hne]
  | cons p ps ih =>
    by_cases hp : p.1 = k
    · subst hp
      simp [mapGet, mapSet, hne]
    · simp [mapGet, mapSet, hp, ih]

theorem mapSet_eq_append {κ α : Type} [DecidableEq κ] (m : List (κ × α)) (k : κ) (v : α)
    (h : mapGet m k = none) : mapSet m k v = m ++ [(k, v)] := by
  induction m with
  | nil => simp [mapSet]
  | cons p ps ih =>
    by_cases hp : p.1 = k
    · simp [mapGet, hp] at h
    · simp [mapGet, hp] at h
      simp [mapSet, hp, ih h]

theorem mapDel_sublist {κ α : Type} [DecidableEq κ] (m : List (κ × α)) (k : κ) :
    (mapDel m k).Sublist m := by
  induction m with
  | nil => simp [mapDel]
  | cons p ps ih =>
    by_cases hp : p.1 = k
    · simp only [mapDel, hp, if_pos rfl]
      exact List.sublist_cons_self p ps
    · simpa [mapDel, hp] using ih.cons₂ p

theorem not_mem_keys_of_lt (m : List (Nat × Transaction)) (c : Nat)
    (h : ∀ p ∈ m, p.1 < c) : c ∉ m.map Prod.fst := by
  intro hc
  rcases List.mem_map.1 hc with ⟨p, hp, hpc⟩
  exact absurd (hpc ▸ h p hp) (lt_irrefl c)

theorem mapGet_eq_none_of_lt (m : List (Nat × Transaction)) (c : Nat)
    (h : ∀ p ∈ m, p.1 < c) : mapGet m c = none := by
  induction m with
  | nil => rfl
  | cons p ps ih =>
    have hp := h p (by simp)
    have : p.1 ≠ c := Nat.ne_of_lt hp
    simp only [mapGet, this, if_false]
    exact ih fun q hq => h q (by simp [hq])

/-! ### Posted sums over the transaction map -/

theorem postedSum_cons (p : Nat × Transaction) (m : List (Nat × Transaction)) (aid : Nat) :
    postedSum (p :: m) aid
      = (if p.2.accountId = some aid then signedAmount p.2 else 0) + postedSum m aid := by
  by_cases h : p.2.accountId = some aid
  · simp [postedSum, h]
  · simp [postedSum, h]

theorem postedSum_append (m m' : List (Nat × Transaction)) (aid : Nat) :
    postedSum (m ++ m') aid = postedSum m aid + postedSum m' aid := by
  simp [postedSum, List.filter_append]

theorem postedSum_single (k : Nat) (t : Transaction) (aid : Nat) :
    postedSum [(k, t)] aid = if t.accountId = some aid then signedAmount t else 0 := by
  by_cases h : t.accountId = some aid
  · simp [postedSum, h]
  · simp [postedSum, h]

theorem postedSum_mapDel (m : List (Nat × Transaction)) (id : Nat) (t : Transaction)
    (aid : Nat) (h : mapGet m id = some t) :
    postedSum (mapDel m id) aid
      = postedSum m aid - (if t.accountId = some aid then signedAmount t else 0) := by
  induction m with
  | nil => simp [mapGet] at h
  | cons p ps ih =>
    by_cases hp : p.1 = id
    · simp only [mapGet, hp, if_pos rfl] at h
      obtain rfl : p.2 = t := by injection h
      simp [mapDel, hp, postedSum_cons]
    · simp only [mapGet, hp, if_neg hp] at h
      simp [mapDel, hp, postedSum_cons, ih h]
      ring

theorem postedSum_eq_income_sub_expense (m : List (Nat × Transaction)) (aid : Nat) :
    postedSum m aid = incomeSum m aid - expenseSum m aid := by
  induction m with
  | nil => simp [postedSum, incomeSum, expenseSum]
  | cons p ps ih =>
    by_cases h : p.2.accountId = some aid
    · cases hty : p.2.type
      · simp [postedSum, incomeSum, expenseSum, h, hty, signedAmount] at ih ⊢
        omega
      · simp [postedSum, incomeSum, expenseSum, h, hty, signedAmount] at ih ⊢
        omega
    · simp [postedSum, incomeSum, expenseSum, h] at ih ⊢
      omega

/-! ### Sequences of transaction create/delete operations (C1) -/

theorem applyPosting_get (accounts : List (Nat × Account)) (oid : Option Nat) (delta : Int)
    (aid : Nat) (a : Account) (haid : aid ≠ 0) (ha : mapGet accounts aid = some a) :
    mapGet (applyPosting accounts oid delta) aid
      = some (if oid = some aid then { a with balance := a.balance + delta } else a) := by
  match oid with
  | none => simpa [applyPosting] using ha
  | some x =>
    by_cases hx : x = 0
    · subst hx
      have : some 0 ≠ some aid := by simpa using (Ne.symm haid)
      simp [applyPosting, this, ha]
    · by_cases hxa : x = aid
      · subst hxa
        simp [applyPosting, hx, ha, mapGet_mapSet_self]
      · have : some x ≠ some aid := by simpa using hxa
        cases hg : mapGet accounts x with
        | none => simp [applyPosting, hx, hg, this, ha]
        | some b => simp [applyPosting, hx, hg, this, mapGet_mapSet_ne _ _ _ _ (Ne.symm hxa), ha]

theorem createTransaction_state (now : Date) (s : MemStorage) (ins : InsertTransaction) :
    (createTransaction now s ins).1 =
      { accounts := applyPosting s.accounts (mkTransaction now s ins).accountId
          (signedAmount (mkTransaction now s ins))
        transactions := mapSet s.transactions s.currentTransactionId (mkTransaction now s ins)
        currentTransactionId := s.currentTransactionId + 1 } := rfl

theorem deleteTransaction_state_found (s : MemStorage) (id : Nat) (t : Transaction)
    (h : mapGet s.transactions id = some t) :
    (deleteTransaction s id).1 =
      { s with
          accounts := applyPosting s.accounts t.accountId (-(signedAmount t))
          transactions := mapDel s.transactions id } := by
  simp [deleteTransaction, h]

theorem deleteTransaction_state_missing (s : MemStorage) (id : Nat)
    (h : mapGet s.transactions id = none) : (deleteTransaction s id).1 = s := by
  simp [deleteTransaction, h]

theorem applyOp_invariant (s : MemStorage) (op : TxOp) (aid : Nat) (a : Account)
    (haid : aid ≠ 0) (hwf : TxWF s) (ha : mapGet s.accounts aid = some a) :
    TxWF (applyOp s op) ∧
      ∃ a', mapGet (applyOp s op).accounts aid = some a' ∧
        a'.balance - postedSum (applyOp s op).transactions aid
          = a.balance - postedSum s.transactions aid := by
  cases op with
  | create now ins =>
    have hstate : applyOp s (TxOp.create now ins) =
        { accounts := applyPosting s.accounts (mkTransaction now s ins).accountId
            (signedAmount (mkTransaction now s ins))
          transactions := mapSet s.transactions s.currentTransactionId (mkTransaction now s ins)
          currentTransactionId := s.currentTransactionId + 1 } :=
      createTransaction_state now s ins
    have hnone : mapGet s.transactions s.currentTransactionId = none :=
      mapGet_eq_none_of_lt _ _ hwf.2
    have happ : mapSet s.transactions s.currentTransactionId (mkTransaction now s ins)
        = s.transactions ++ [(s.currentTransactionId, mkTransaction now s ins)] :=
      mapSet_eq_append _ _ _ hnone
    rw [hstate]
    constructor
    · constructor
      · simp only [happ, List.map_append, List.nodup_append]
        refine ⟨hwf.1, by simp, ?_⟩
        intro x hx hx'
        simp only [List.map_cons, List.map_nil, List.mem_singleton] at hx'
        subst hx'
        rcases List.mem_map.1 hx with ⟨p, hp, hpx⟩
        exact absurd (hpx ▸ hwf.2 p hp) (lt_irrefl _)
      · intro p hp
        simp only [happ] at hp
        rcases List.mem_append.1 hp with h1 | h1
        · exact Nat.lt_trans (hwf.2 p h1) (Nat.lt_succ_self _)
        · simp only [List.mem_singleton] at h1
          subst h1
          exact Nat.lt_succ_self _
    · have hacc := applyPosting_get s.accounts (mkTransaction now s ins).accountId
        (signedAmount (mkTransaction now s ins)) aid a haid ha
      refine ⟨_, hacc, ?_⟩
      simp only [happ, postedSum_append, postedSum_single]
      by_cases hc : (mkTransaction now s ins).accountId = some aid
      · simp only [hc, if_pos rfl, if_true]
        ring
      · simp only [if_neg hc]
        ring
  | delete id =>
    cases hget : mapGet s.transactions id with
    | none =>
      have hstate : applyOp s (TxOp.delete id) = s := deleteTransaction_state_missing s id hget
      rw [hstate]
      exact ⟨hwf, a, ha, rfl⟩
    | some t =>
      have hstate : applyOp s (TxOp.delete id) =
          { s with
              accounts := applyPosting s.accounts t.accountId (-(signedAmount t))
              transactions := mapDel s.transactions id } :=
        deleteTransaction_state_found s id t hget
      rw [hstate]
      constructor
      · constructor
        · exact hwf.1.sublist ((mapDel_sublist s.transactions id).map Prod.fst)
        · intro p hp
          exact hwf.2 p ((mapDel_sublist s.transactions id).subset hp)
      · have hacc := applyPosting_get s.accounts t.accountId (-(signedAmount t)) aid a haid ha
        refine ⟨_, hacc, ?_⟩
        simp only [postedSum_mapDel s.transactions id t aid hget]
        by_cases hc : t.accountId = some aid
        · simp only [hc, if_pos rfl, if_true]
          ring
        · simp only [if_neg hc]
          ring

theorem runOps_invariant (ops : List TxOp) (aid : Nat) :
    ∀ s : MemStorage, ∀ a : Account, aid ≠ 0 → TxWF s → mapGet s.accounts aid = some a →
      ∃ a', mapGet (runOps s ops).accounts aid = some a' ∧
        a'.balance - postedSum (runOps s ops).transactions aid
          = a.balance - postedSum s.transactions aid := by
  induction ops with
  | nil => exact fun s a _ _ ha => ⟨a, ha, rfl⟩
  | cons op ops ih =>
    intro s a haid hwf ha
    obtain ⟨hwf', a₁, ha₁, hd₁⟩ := applyOp_invariant s op aid a haid hwf ha
    obtain ⟨a', ha', hd'⟩ := ih (applyOp s op) a₁ haid hwf' ha₁
    refine ⟨a', ?_, ?_⟩
    · simpa [runOps] using ha'
    · have : a'.balance - postedSum (runOps (applyOp s op) ops).transactions aid
          = a.balance - postedSum s.transactions aid := by
        rw [hd', hd₁]
      simpa [runOps] using this

theorem orNullNat_some_ne_zero (o : Option Nat) (aid : Nat) (h : orNullNat o = some aid) :
    aid ≠ 0 := by
  match o with
  | none => simp [orNullNat] at h
  | some n =>
    by_cases hn : n = 0
    · simp [orNullNat, hn] at h
    · simp [orNullNat, hn] at h
      exact h ▸ hn

theorem signedAmount_mkTransaction (now : Date) (s : MemStorage) (ins : InsertTransaction) :
    signedAmount (mkTransaction now s ins)
      = (match ins.type with
         | TxType.income => ins.amount
         | TxType.expense => -ins.amount) := rfl

/-! ### Claim theorems: balance maintenance -/

/-- C1: for every account, every initial balance and every sequence of
transaction create/delete operations, the final stored balance equals the
initial balance plus the income sum minus the expense sum of the
currently-existing transactions referencing that account. -/
theorem balance_invariant_over_ops (s₀ : MemStorage) (ops : List TxOp) (aid : Nat)
    (a₀ : Account) (haid : aid ≠ 0) (hwf : TxWF s₀)
    (ha : mapGet s₀.accounts aid = some a₀)
    (hinc : incomeSum s₀.transactions aid = 0) (hexp : expenseSum s₀.transactions aid = 0) :
    ∃ a', mapGet (runOps s₀ ops).accounts aid = some a' ∧
      a'.balance = a₀.balance
        + incomeSum (runOps s₀ ops).transactions aid
        - expenseSum (runOps s₀ ops).transactions aid := by
  obtain ⟨a', ha', hd⟩ := runOps_invariant ops aid s₀ a₀ haid hwf ha
  refine ⟨a', ha', ?_⟩
  rw [postedSum_eq_income_sub_expense, postedSum_eq_income_sub_expense, hinc, hexp] at hd
  omega

theorem balance_invariant_over_ops_witness :
    TxWF wStore ∧ mapGet wStore.accounts 1 = some wAccount ∧
    incomeSum wStore.transactions 1 = 0 ∧ expenseSum wStore.transactions 1 = 0 ∧
    (mapGet (runOps wStore wOps).accounts 1).map Account.balance = some 12000 ∧
    (∃ a', mapGet (runOps wStore wOps).accounts 1 = some a' ∧
      a'.balance = wAccount.balance
        + incomeSum (runOps wStore wOps).transactions 1
        - expenseSum (runOps wStore wOps).transactions 1) :=
  ⟨⟨by decide, by decide⟩, by decide, by decide, by decide, by decide,
    balance_invariant_over_ops wStore wOps 1 wAccount (by decide) ⟨by decide, by decide⟩
      (by decide) (by decide) (by decide)⟩

/-- C2: a create whose (normalised) `accountId` refers to an existing account
sets that account's balance to old `+ amount` (income) / `- amount` (expense);
when the account does not exist the transaction row is still stored and the
accounts map is untouched. -/
theorem createTransaction_posts (now : Date) (s : MemStorage) (ins : InsertTransaction)
    (aid : Nat) (hacc : orNullNat ins.accountId = some aid) :
    (∀ a, mapGet s.accounts aid = some a →
        mapGet (createTransaction now s ins).1.accounts aid
          = some { a with balance :=
              if ins.type = TxType.income then a.balance + ins.amount
              else a.balance - ins.amount }) ∧
    (mapGet s.accounts aid = none → (createTransaction now s ins).1.accounts = s.accounts) ∧
    mapGet (createTransaction now s ins).1.transactions s.currentTransactionId
      = some (mkTransaction now s ins) := by
  have haid : aid ≠ 0 := orNullNat_some_ne_zero _ _ hacc
  have hmk : (mkTransaction now s ins).accountId = some aid := hacc
  refine ⟨?_, ?_, ?_⟩
  · intro a ha
    have h := applyPosting_get s.accounts (mkTransaction now s ins).accountId
      (signedAmount (mkTransaction now s ins)) aid a haid ha
    rw [createTransaction_state, h]
    cases hty : ins.type
    · simp [hmk, signedAmount_mkTransaction, hty]
    · simp [hmk, signedAmount_mkTransaction, hty, sub_eq_add_neg]
  · intro ha
    rw [createTransaction_state]
    simp [applyPosting, hmk, haid, ha]
  · rw [createTransaction_state]
    exact mapGet_mapSet_self _ _ _

theorem createTransaction_posts_witness :
    orNullNat wInsExpense.accountId = some 1 ∧
    mapGet wStore.accounts 1 = some wAccount ∧
    mapGet (createTransaction wNow wStore wInsExpense).1.accounts 1
      = some { wAccount with balance :=
          if wInsExpense.type = TxType.income then wAccount.balance + wInsExpense.amount
          else wAccount.balance - wInsExpense.amount } ∧
    mapGet (createTransaction wNow wStore wInsExpense).1.transactions
        wStore.currentTransactionId
      = some (mkTransaction wNow wStore wInsExpense) :=
  ⟨by decide, by decide,
    (createTransaction_posts wNow wStore wInsExpense 1 (by decide)).1 wAccount (by decide),
    (createTransaction_posts wNow wStore wInsExpense 1 (by decide)).2.2⟩

/-- C3: `updateTransaction` only patches the stored row; the accounts map —
hence every stored balance — is unchanged by any partial update payload. -/
theorem updateTransaction_frame (s : MemStorage) (id : Nat) (u : UpdateTransaction) :
    (updateTransaction s id u).1.accounts = s.accounts ∧
    ∀ t, mapGet s.transactions id = some t →
      (updateTransaction s id u).2 = some (mergeTransaction t u) ∧
      (updateTransaction s id u).1.transactions
        = mapSet s.transactions id (mergeTransaction t u) := by
  cases h : mapGet s.transactions id with
  | none =>
    refine ⟨by simp [updateTransaction, h], ?_⟩
    intro t ht
    exact Option.noConfusion ht
  | some t =>
    refine ⟨by simp [updateTransaction, h], ?_⟩
    intro t' ht'
    obtain rfl : t = t' := by injection ht'
    exact ⟨by simp [updateTransaction, h], by simp [updateTransaction, h]⟩

theorem updateTransaction_frame_witness :
    mapGet wStore1.transactions 1 = some (mkTransaction wNow wStore wInsExpense) ∧
    (updateTransaction wStore1 1 wUpd).1.accounts = wStore1.accounts ∧
    (updateTransaction wStore1 1 wUpd).2
      = some (mergeTransaction (mkTransaction wNow wStore wInsExpense) wUpd) :=
  ⟨by decide, (updateTransaction_frame wStore1 1 wUpd).1,
    ((updateTransaction_frame wStore1 1 wUpd).2 _ (by decide)).1⟩

/-- C6: deleting a stored transaction and re-creating one with the same type,
amount and account restores the account's balance to its pre-delete value. -/
theorem delete_then_recreate_restores_balance (s : MemStorage) (id : Nat) (t : Transaction)
    (aid : Nat) (a : Account) (now : Date) (ins : InsertTransaction)
    (ht : mapGet s.transactions id = some t)
    (hta : t.accountId = some aid)
    (ha : mapGet s.accounts aid = some a)
    (hty : ins.type = t.type) (hamt : ins.amount = t.amount)
    (hia : orNullNat ins.accountId = some aid) :
    ∃ a', mapGet (createTransaction now (deleteTransaction s id).1 ins).1.accounts aid
        = some a' ∧ a'.balance = a.balance := by
  have haid : aid ≠ 0 := orNullNat_some_ne_zero _ _ hia
  have hmk : (mkTransaction now (deleteTransaction s id).1 ins).accountId = some aid := hia
  have h₁ := applyPosting_get s.accounts t.accountId (-(signedAmount t)) aid a haid ha
  rw [hta, if_pos rfl] at h₁
  have hs₁ : (deleteTransaction s id).1.accounts
      = applyPosting s.accounts t.accountId (-(signedAmount t)) := by
    rw [deleteTransaction_state_found s id t ht]
  have hsig : signedAmount (mkTransaction now (deleteTransaction s id).1 ins) = signedAmount t := by
    rw [signedAmount_mkTransaction, hty, hamt]
    cases htt : t.type <;> simp [signedAmount, htt]
  have h₂ := applyPosting_get (deleteTransaction s id).1.accounts
    (mkTransaction now (deleteTransaction s id).1 ins).accountId
    (signedAmount (mkTransaction now (deleteTransaction s id).1 ins)) aid
    { a with balance := a.balance + -signedAmount t } haid (by rw [hs₁, hta]; exact h₁)
  rw [createTransaction_state]
  refine ⟨_, h₂, ?_⟩
  have hbal : a.balance + -signedAmount t + signedAmount t = a.balance := by ring
  simp [hmk, hsig, hbal]

theorem delete_then_recreate_restores_balance_witness :
    mapGet wStore1.transactions 1 = some (mkTransaction wNow wStore wInsExpense) ∧
    (mkTransaction wNow wStore wInsExpense).accountId = some 1 ∧
    mapGet wStore1.accounts 1
      = some { wAccount with balance := 7000 } ∧
    (∃ a', mapGet (createTransaction wNow (deleteTransaction wStore1 1).1
        wInsExpense).1.accounts 1 = some a' ∧
      a'.balance = ({ wAccount with balance := 7000 } : Account).balance) :=
  ⟨by decide, by decide, by decide,
    delete_then_recreate_restores_balance wStore1 1 (mkTransaction wNow wStore wInsExpense)
      1 { wAccount with balance := 7000 } wNow wInsExpense (by decide) (by decide)
      (by decide) (by decide) (by decide) (by decide)⟩

theorem charListLe_iff (x : List Char) :
    ∀ y, charListLe x y = true ↔ ¬ List.Lex (· < ·) y x := by
  induction x with
  | nil =>
    intro y
    simp only [charListLe]
    constructor
    · intro _ h
      cases h
    · intro _
      trivial
  | cons a as ih =>
    intro y
    cases y with
    | nil =>
      simp only [charListLe]
      constructor
      · intro h
        exact Bool.noConfusion h
      · intro h
        exact absurd List.Lex.nil h
    | cons b bs =>
      by_cases hab : a < b
      · simp only [charListLe, if_pos hab]
        constructor
        · intro _ h
          cases h with
          | cons h' => exact absurd hab (lt_irrefl a)
          | rel h' => exact absurd h' (asymm hab)
        · intro _
          trivial
      · by_cases hba : b < a
        · simp only [charListLe, if_neg hab, if_pos hba]
          constructor
          · intro h
            exact Bool.noConfusion h
          · intro h
            exact absurd (List.Lex.rel hba) h
        · have heq : a = b := le_antisymm (le_of_not_lt hba) (le_of_not_lt hab)
          subst heq
          rw [show charListLe (a :: as) (a :: bs) = charListLe as bs from by
            simp [charListLe]]
          rw [ih bs]
          constructor
          · intro h hl
            cases hl with
            | cons h' => exact h h'
            | rel h' => exact absurd h' (lt_irrefl a)
          · intro h hl
            exact h (List.Lex.cons hl)

theorem strLeB_iff_le (a b : String) : strLeB a b = true ↔ a ≤ b := by
  rw [strLeB, charListLe_iff, String.le_iff_toList_le, ← not_lt]
  exact Iff.rfl

theorem mem_insertKey (b x : String) (l : List String) :
    b ∈ insertKey x l ↔ b = x ∨ b ∈ l := by
  induction l with
  | nil => simp [insertKey]
  | cons y ys ih =>
    rw [insertKey]
    by_cases hxy : strLeB x y = true
    · simp [if_pos hxy]
    · simp only [if_neg hxy, List.mem_cons, ih]
      tauto

theorem sorted_insertKey (x : String) (l : List String) (h : List.Sorted (· ≤ ·) l) :
    List.Sorted (· ≤ ·) (insertKey x l) := by
  induction l with
  | nil => simp [insertKey]
  | cons y ys ih =>
    rw [insertKey]
    by_cases hxy : strLeB x y = true
    · rw [if_pos hxy]
      have hxley : x ≤ y := (strLeB_iff_le x y).1 hxy
      rw [List.sorted_cons]
      refine ⟨?_, h⟩
      intro b hb
      rcases List.mem_cons.1 hb with rfl | hb
      · exact hxley
      · exact le_trans hxley ((List.sorted_cons.1 h).1 b hb)
    · rw [if_neg hxy]
      have hylex : y ≤ x :=
        le_of_not_le fun hc => hxy ((strLeB_iff_le x y).2 hc)
      rw [List.sorted_cons] at h ⊢
      refine ⟨?_, ih h.2⟩
      intro b hb
      rcases (mem_insertKey b x ys).1 hb with rfl | hb
      · exact hylex
      · exact h.1 b hb

theorem sorted_sortKeys (l : List String) : List.Sorted (· ≤ ·) (sortKeys l) := by
  induction l with
  | nil => simp [sortKeys]
  | cons x xs ih => exact sorted_insertKey x (sortKeys xs) ih

theorem mem_sortKeys (a : String) (l : List String) : a ∈ sortKeys l ↔ a ∈ l := by
  induction l with
  | nil => simp [sortKeys]
  | cons x xs ih =>
    rw [sortKeys, mem_insertKey, ih]
    simp

/-! ### Claim theorems: analytics -/

/-- C7: the trends list has at most 6 entries, its month keys ascend in
string order (chronological for zero-padded `YYYY-MM` keys), and every
entry's `net` is its `income` minus its `expenses`. -/
theorem monthlyTrends_shape (txs : List Transaction) :
    (monthlyTrends txs).length ≤ 6 ∧
    List.Sorted (· ≤ ·) ((monthlyTrends txs).map TrendEntry.month) ∧
    ∀ e ∈ monthlyTrends txs, e.net = e.income - e.expenses := by
  have hmap : (monthlyTrends txs).map TrendEntry.month = last6MonthsOf txs := by
    rw [monthlyTrends, List.map_map]
    show (last6MonthsOf txs).map (fun k => k) = last6MonthsOf txs
    exact List.map_id' _
  refine ⟨?_, ?_, ?_⟩
  · have hlen : (monthlyTrends txs).length
        = (sortedMonthsOf txs).length - ((sortedMonthsOf txs).length - 6) := by
      simp [monthlyTrends, last6MonthsOf]
    omega
  · rw [hmap]
    have hs : List.Sorted (· ≤ ·) (sortedMonthsOf txs) :=
      sorted_sortKeys _
    exact List.Pairwise.sublist (List.drop_sublist _ _) hs
  · intro e he
    rcases List.mem_map.1 he with ⟨k, _, rfl⟩
    rfl

/-- C8: the percent-change fields are exactly 0 when the previous-month total
is 0 and otherwise equal `(current − previous) / previous × 100`, given the
schema-level fact that transaction amounts are nonnegative. -/
theorem summary_changePercent_spec (txs : List Transaction) (accounts : List Account)
    (y m : Nat) (hpos : ∀ t ∈ txs, 0 ≤ t.amount) :
    ((summaryOf txs accounts y m).prevMonthIncome = 0 →
      (summaryOf txs accounts y m).incomeChangePercent = 0) ∧
    ((summaryOf txs accounts y m).prevMonthIncome ≠ 0 →
      (summaryOf txs accounts y m).incomeChangePercent
        = (((summaryOf txs accounts y m).monthlyIncome : ℚ)
            - ((summaryOf txs accounts y m).prevMonthIncome : ℚ))
          / ((summaryOf txs accounts y m).prevMonthIncome : ℚ) * 100) ∧
    ((summaryOf txs accounts y m).prevMonthExpenses = 0 →
      (summaryOf txs accounts y m).expenseChangePercent = 0) ∧
    ((summaryOf txs accounts y m).prevMonthExpenses ≠ 0 →
      (summaryOf txs accounts y m).expenseChangePercent
        = (((summaryOf txs accounts y m).monthlyExpenses : ℚ)
            - ((summaryOf txs accounts y m).prevMonthExpenses : ℚ))
          / ((summaryOf txs accounts y m).prevMonthExpenses : ℚ) * 100) := by
  have hincpos : 0 ≤ monthIncomeCents txs (prevMonth y m).1 (prevMonth y m).2 := by
    apply List.sum_nonneg
    intro x hx
    rcases List.mem_map.1 hx with ⟨t, ht, rfl⟩
    exact hpos t (List.mem_of_mem_filter ht)
  have hexppos : 0 ≤ monthExpenseCents txs (prevMonth y m).1 (prevMonth y m).2 := by
    apply List.sum_nonneg
    intro x hx
    rcases List.mem_map.1 hx with ⟨t, ht, rfl⟩
    exact hpos t (List.mem_of_mem_filter ht)
  have hpi : (summaryOf txs accounts y m).prevMonthIncome
      = monthIncomeCents txs (prevMonth y m).1 (prevMonth y m).2 := rfl
  have hpe : (summaryOf txs accounts y m).prevMonthExpenses
      = monthExpenseCents txs (prevMonth y m).1 (prevMonth y m).2 := rfl
  refine ⟨?_, ?_, ?_, ?_⟩
  · intro h0
    rw [hpi] at h0
    show changePercent (monthIncomeCents txs y m)
      (monthIncomeCents txs (prevMonth y m).1 (prevMonth y m).2) = 0
    simp [changePercent, h0]
  · intro hne
    rw [hpi] at hne
    have hlt : 0 < monthIncomeCents txs (prevMonth y m).1 (prevMonth y m).2 :=
      lt_of_le_of_ne hincpos (Ne.symm hne)
    show changePercent (monthIncomeCents txs y m)
      (monthIncomeCents txs (prevMonth y m).1 (prevMonth y m).2) = _
    simp only [changePercent, if_pos hlt]
    rfl
  · intro h0
    rw [hpe] at h0
    show changePercent (monthExpenseCents txs y m)
      (monthExpenseCents txs (prevMonth y m).1 (prevMonth y m).2) = 0
    simp [changePercent, h0]
  · intro hne
    rw [hpe] at hne
    have hlt : 0 < monthExpenseCents txs (prevMonth y m).1 (prevMonth y m).2 :=
      lt_of_le_of_ne hexppos (Ne.symm hne)
    show changePercent (monthExpenseCents txs y m)
      (monthExpenseCents txs (prevMonth y m).1 (prevMonth y m).2) = _
    simp only [changePercent, if_pos hlt]
    rfl

theorem summary_changePercent_spec_witness :
    (∀ t ∈ c8txs, 0 ≤ t.amount) ∧
    (summaryOf c8txs [] 2025 9).prevMonthIncome = 0 ∧
    (summaryOf c8txs [] 2025 9).incomeChangePercent = 0 :=
  ⟨by decide, by decide,
    (summary_changePercent_spec c8txs [] 2025 9 (by decide)).1 (by decide)⟩

theorem ebcFold_get (cats : List (Nat × Category)) (name : String) :
    ∀ (l : List Transaction) (acc : List (String × Int)),
      mapGet (l.foldl (ebcStep cats) acc) name =
        (if (l.filter (fun t => decide (resolveCategoryName cats t.categoryId = name))).isEmpty
         then mapGet acc name
         else some (((mapGet acc name).getD 0)
           + ((l.filter (fun t => decide (resolveCategoryName cats t.categoryId = name))).map
               (fun t => t.amount)).sum)) := by
  intro l
  induction l with
  | nil => intro acc; simp
  | cons h tl ih =>
    intro acc
    by_cases hn : resolveCategoryName cats h.categoryId = name
    · have hstep : mapGet (ebcStep cats acc h) name
          = some ((mapGet acc name).getD 0 + h.amount) := by
        simp only [ebcStep, hn]
        exact mapGet_mapSet_self _ _ _
      rw [List.foldl_cons, ih (ebcStep cats acc h)]
      cases hemp : (tl.filter
          (fun t => decide (resolveCategoryName cats t.categoryId = name))).isEmpty
      · simp [List.filter_cons, hn, hstep, hemp]
        ring
      · have hnil : tl.filter
            (fun t => decide (resolveCategoryName cats t.categoryId = name)) = [] :=
          List.isEmpty_iff.1 hemp
        simp [List.filter_cons, hn, hstep, hemp, hnil]
    · have hstep : mapGet (ebcStep cats acc h) name = mapGet acc name := by
        simp only [ebcStep]
        exact mapGet_mapSet_ne _ _ _ _ (fun e => hn e.symm)
      rw [List.foldl_cons, ih (ebcStep cats acc h)]
      simp [List.filter_cons, hn, hstep]

/-- C9: `expensesByCategory` maps each category name to the sum of the
amounts of the non-excluded expense transactions resolving to it (so equal
names accumulate), omits names with no such transaction, and resolves a null
or dangling `categoryId` to the fixed uncategorized label. -/
theorem expensesByCategory_spec (txs : List Transaction) (cats : List (Nat × Category)) :
    (∀ name, mapGet (expensesByCategory txs cats) name =
      (if ((txs.filter countsAsExpense).filter
            (fun t => decide (resolveCategoryName cats t.categoryId = name))).isEmpty
       then none
       else some ((((txs.filter countsAsExpense).filter
            (fun t => decide (resolveCategoryName cats t.categoryId = name))).map
              (fun t => t.amount)).sum))) ∧
    resolveCategoryName cats none = "Sin categoría" ∧
    (∀ cid, mapGet cats cid = none → resolveCategoryName cats (some cid) = "Sin categoría") := by
  refine ⟨?_, rfl, ?_⟩
  · intro name
    rw [expensesByCategory, ebcFold_get]
    cases hemp : ((txs.filter countsAsExpense).filter
        (fun t => decide (resolveCategoryName cats t.categoryId = name))).isEmpty
    · simp [hemp, mapGet]
    · simp [hemp, mapGet]
  · intro cid hcid
    by_cases hc : cid = 0
    · simp [resolveCategoryName, hc]
    · simp [resolveCategoryName, hc, hcid]

theorem expensesByCategory_spec_witness :
    mapGet c9cats 9 = none ∧
    resolveCategoryName c9cats (some 9) = "Sin categoría" ∧
    mapGet (expensesByCategory c9txs c9cats) "Food" = some 4000 ∧
    mapGet (expensesByCategory c9txs c9cats) "Transport" = some 2500 ∧
    mapGet (expensesByCategory c9txs c9cats) "Sin categoría" = some 1000 :=
  ⟨by decide, (expensesByCategory_spec c9txs c9cats).2.2 9 (by decide),
    by decide, by decide, by decide⟩

theorem countsAs_false_of_marked (t : Transaction) (h : isMarked t = true) :
    countsAsIncome t = false ∧ countsAsExpense t = false := by
  simp [countsAsIncome, countsAsExpense, h]

theorem trendStep_bucket_other (acc : List (String × MonthAcc)) (t : Transaction)
    (k : String) (hk : k ≠ monthKey t.transactionDate) :
    bucketOf (trendStep acc t) k = bucketOf acc k := by
  simp only [bucketOf, trendStep]
  rw [mapGet_mapSet_ne _ _ _ _ hk]

theorem trendStep_bucket_same_marked (acc : List (String × MonthAcc)) (t : Transaction)
    (h : isMarked t = true) :
    bucketOf (trendStep acc t) (monthKey t.transactionDate)
      = bucketOf acc (monthKey t.transactionDate) := by
  obtain ⟨h1, h2⟩ := countsAs_false_of_marked t h
  simp only [bucketOf, trendStep, h1, h2, Bool.false_eq_true, if_false]
  rw [mapGet_mapSet_self]
  rfl

theorem trendsFold_congr (l : List Transaction) :
    ∀ acc acc' : List (String × MonthAcc), (∀ k, bucketOf acc k = bucketOf acc' k) →
      ∀ k, bucketOf (l.foldl trendStep acc) k = bucketOf (l.foldl trendStep acc') k := by
  induction l with
  | nil => exact fun acc acc' h k => h k
  | cons t tl ih =>
    intro acc acc' h k
    rw [List.foldl_cons, List.foldl_cons]
    apply ih
    intro k'
    by_cases hk : k' = monthKey t.transactionDate
    · subst hk
      have hb := h (monthKey t.transactionDate)
      simp only [bucketOf] at hb
      simp only [bucketOf, trendStep, hb]
      rw [mapGet_mapSet_self, mapGet_mapSet_self]
    · rw [trendStep_bucket_other _ _ _ hk, trendStep_bucket_other _ _ _ hk]
      exact h k'

theorem marked_cons_monthlyData (t : Transaction) (txs : List Transaction)
    (h : isMarked t = true) :
    ∀ k, bucketOf (monthlyData (t :: txs)) k = bucketOf (monthlyData txs) k := by
  have hstep : ∀ k, bucketOf (trendStep [] t) k = bucketOf [] k := by
    intro k
    by_cases hk : k = monthKey t.transactionDate
    · subst hk
      exact trendStep_bucket_same_marked [] t h
    · exact trendStep_bucket_other [] t k hk
  intro k
  show bucketOf (txs.foldl trendStep (trendStep [] t)) k = bucketOf (txs.foldl trendStep []) k
  exact trendsFold_congr txs (trendStep [] t) [] hstep k

theorem monthIncomeCents_cons_marked (t : Transaction) (txs : List Transaction)
    (y m : Nat) (h : isMarked t = true) :
    monthIncomeCents (t :: txs) y m = monthIncomeCents txs y m := by
  obtain ⟨h1, _⟩ := countsAs_false_of_marked t h
  simp [monthIncomeCents, List.filter_cons, h1]

theorem monthExpenseCents_cons_marked (t : Transaction) (txs : List Transaction)
    (y m : Nat) (h : isMarked t = true) :
    monthExpenseCents (t :: txs) y m = monthExpenseCents txs y m := by
  obtain ⟨_, h2⟩ := countsAs_false_of_marked t h
  simp [monthExpenseCents, List.filter_cons, h2]

theorem expensesByCategory_cons_marked (t : Transaction) (txs : List Transaction)
    (cats : List (Nat × Category)) (h : isMarked t = true) :
    expensesByCategory (t :: txs) cats = expensesByCategory txs cats := by
  obtain ⟨_, h2⟩ := countsAs_false_of_marked t h
  simp [expensesByCategory, List.filter_cons, h2]

/-- C5: a transaction carrying the transfer or loan-payment marker still
adjusts the linked account's balance on create and on delete by the standard
posting law, yet contributes nothing to the monthly or previous-month
income/expense totals, to `expensesByCategory`, or to the per-month trend
accumulators. -/
theorem marked_transactions_spec (t : Transaction) (ins : InsertTransaction)
    (txs : List Transaction) (cats : List (Nat × Category))
    (hmt : isMarked t = true)
    (_hmi : orNullStr ins.thirdParty = some "Transferencia"
      ∨ hasLoanMarker ins.description = true) :
    (∀ (now : Date) (s : MemStorage) (aid : Nat) (a : Account),
        orNullNat ins.accountId = some aid → mapGet s.accounts aid = some a →
        mapGet (createTransaction now s ins).1.accounts aid
          = some { a with balance :=
              if ins.type = TxType.income then a.balance + ins.amount
              else a.balance - ins.amount }) ∧
    (∀ (s : MemStorage) (id aid : Nat) (a : Account),
        mapGet s.transactions id = some t → t.accountId = some aid → aid ≠ 0 →
        mapGet s.accounts aid = some a →
        mapGet (deleteTransaction s id).1.accounts aid
          = some { a with balance :=
              if t.type = TxType.income then a.balance - t.amount
              else a.balance + t.amount }) ∧
    (∀ y m, monthIncomeCents (t :: txs) y m = monthIncomeCents txs y m ∧
            monthExpenseCents (t :: txs) y m = monthExpenseCents txs y m) ∧
    expensesByCategory (t :: txs) cats = expensesByCategory txs cats ∧
    (∀ k, bucketOf (monthlyData (t :: txs)) k = bucketOf (monthlyData txs) k) := by
  refine ⟨?_, ?_, ?_, ?_, ?_⟩
  · intro now s aid a hacc ha
    have haid : aid ≠ 0 := orNullNat_some_ne_zero _ _ hacc
    have hmk : (mkTransaction now s ins).accountId = some aid := hacc
    have hpost := applyPosting_get s.accounts (mkTransaction now s ins).accountId
      (signedAmount (mkTransaction now s ins)) aid a haid ha
    rw [createTransaction_state, hpost]
    cases hty : ins.type
    · simp [hmk, signedAmount_mkTransaction, hty]
    · simp [hmk, signedAmount_mkTransaction, hty, sub_eq_add_neg]
  · intro s id aid a ht hta haid ha
    have hpost := applyPosting_get s.accounts t.accountId (-(signedAmount t)) aid a haid ha
    rw [deleteTransaction_state_found s id t ht]
    show mapGet (applyPosting s.accounts t.accountId (-(signedAmount t))) aid = _
    rw [hpost, hta]
    cases htt : t.type
    · simp [signedAmount, htt, sub_eq_add_neg]
    · simp [signedAmount, htt]
  · exact fun y m => ⟨monthIncomeCents_cons_marked t txs y m hmt,
      monthExpenseCents_cons_marked t txs y m hmt⟩
  · exact expensesByCategory_cons_marked t txs cats hmt
  · exact marked_cons_monthlyData t txs hmt

theorem marked_transactions_spec_witness :
    isMarked c5t = true ∧
    orNullStr c5ins.thirdParty = some "Transferencia" ∧
    mapGet (createTransaction wNow wStore c5ins).1.accounts 1
      = some { wAccount with balance :=
          if c5ins.type = TxType.income then wAccount.balance + c5ins.amount
          else wAccount.balance - c5ins.amount } ∧
    monthIncomeCents (c5t :: c5txs) 2025 9 = monthIncomeCents c5txs 2025 9 ∧
    expensesByCategory (c5t :: c5txs) c9cats = expensesByCategory c5txs c9cats ∧
    bucketOf (monthlyData (c5t :: c5txs)) "2025-09"
      = bucketOf (monthlyData c5txs) "2025-09" := by
  have H := marked_transactions_spec c5t c5ins c5txs c9cats (by decide) (Or.inl (by decide))
  exact ⟨by decide, by decide, H.1 wNow wStore 1 wAccount (by decide) (by decide),
    (H.2.2.1 2025 9).1, H.2.2.2.1, H.2.2.2.2 "2025-09"⟩

theorem mem_keys_of_mapGet_some {κ α : Type} [DecidableEq κ] (m : List (κ × α)) (k : κ)
    (v : α) (h : mapGet m k = some v) : k ∈ m.map Prod.fst := by
  induction m with
  | nil => simp [mapGet] at h
  | cons p ps ih =>
    by_cases hp : p.1 = k
    · simp [hp]
    · simp only [mapGet, hp, if_neg hp] at h
      simp [ih h]

theorem monthlyData_all_marked (k : String) (txs : List Transaction)
    (hall : ∀ t ∈ txs, monthKey t.transactionDate = k → isMarked t = true) :
    ∀ acc, mapGet (txs.foldl trendStep acc) k =
      if txs.any (fun t => decide (monthKey t.transactionDate = k))
      then some ((mapGet acc k).getD ⟨0, 0⟩)
      else mapGet acc k := by
  induction txs with
  | nil => intro acc; simp
  | cons t tl ih =>
    have htl : ∀ t' ∈ tl, monthKey t'.transactionDate = k → isMarked t' = true :=
      fun t' h' => hall t' (List.mem_cons_of_mem _ h')
    intro acc
    by_cases hk : monthKey t.transactionDate = k
    · subst hk
      have hmt : isMarked t = true := hall t (List.mem_cons_self _ _) rfl
      obtain ⟨h1, h2⟩ := countsAs_false_of_marked t hmt
      have hstep : mapGet (trendStep acc t) (monthKey t.transactionDate)
          = some ((mapGet acc (monthKey t.transactionDate)).getD ⟨0, 0⟩) := by
        simp only [trendStep, h1, h2, Bool.false_eq_true, if_false]
        rw [mapGet_mapSet_self]
      rw [List.foldl_cons, ih htl (trendStep acc t), hstep]
      cases hany : tl.any (fun t' => decide (monthKey t'.transactionDate
          = monthKey t.transactionDate))
      · simp [List.any_cons, hany]
      · simp [List.any_cons, hany]
    · have hstep : mapGet (trendStep acc t) k = mapGet acc k := by
        simp only [trendStep]
        exact mapGet_mapSet_ne _ _ _ _ (fun e => hk e.symm)
      rw [List.foldl_cons, ih htl (trendStep acc t), hstep]
      simp [List.any_cons, hk]

/-- C10: a month key all of whose transactions carry the transfer or
loan-payment marker still gets a `{income := 0, expenses := 0}` bucket
(created before the exclusion check), therefore occupies a slot in the
sorted month-key list the 6-entry window is cut from, and — whenever it
falls inside that window — appears in the output as a zero entry. -/
theorem excluded_month_in_trends (txs : List Transaction) (k : String)
    (hex : txs.any (fun t => decide (monthKey t.transactionDate = k)) = true)
    (hall : ∀ t ∈ txs, monthKey t.transactionDate = k → isMarked t = true) :
    mapGet (monthlyData txs) k = some ⟨0, 0⟩ ∧
    k ∈ sortedMonthsOf txs ∧
    (k ∈ last6MonthsOf txs →
      ({ month := k, income := 0, expenses := 0, net := 0 } : TrendEntry)
        ∈ monthlyTrends txs) := by
  have h1 : mapGet (monthlyData txs) k = some ⟨0, 0⟩ := by
    have hfold := monthlyData_all_marked k txs hall []
    rw [hex] at hfold
    simpa [monthlyData, mapGet] using hfold
  refine ⟨h1, ?_, ?_⟩
  · have hk : k ∈ (monthlyData txs).map Prod.fst := mem_keys_of_mapGet_some _ _ _ h1
    show k ∈ sortedMonthsOf txs
    rw [sortedMonthsOf, mem_sortKeys]
    exact hk
  · intro h6
    have hentry : trendOf txs k
        = { month := k, income := 0, expenses := 0, net := 0 } := by
      simp [trendOf, h1]
    rw [monthlyTrends, ← hentry]
    exact List.mem_map_of_mem (trendOf txs) h6

theorem excluded_month_in_trends_witness :
    c10txs.any (fun t => decide (monthKey t.transactionDate = "2025-08")) = true ∧
    (∀ t ∈ c10txs, monthKey t.transactionDate = "2025-08" → isMarked t = true) ∧
    "2025-08" ∈ last6MonthsOf c10txs ∧
    mapGet (monthlyData c10txs) "2025-08" = some ⟨0, 0⟩ ∧
    ({ month := "2025-08", income := 0, expenses := 0, net := 0 } : TrendEntry)
      ∈ monthlyTrends c10txs := by
  have H := excluded_month_in_trends c10txs "2025-08" (by decide) (by decide)
  exact ⟨by decide, by decide, by decide, H.1, H.2.2 (by decide)⟩

end TaskTracker
